import Mathlib

/-!
Shallow embedding of the mandelbrot-rs viewer core (src/main.rs).

Floating-point values (`f64` coordinates, the `f32` arithmetic of
`normalize` and `hsv_to_rgb`) are idealised as exact rationals; machine
integers (`u32`) are natural numbers with explicit wrap-around modulo
2^32 where the source type can overflow.  Code that can panic (the
indexing `self.set[i]` in `draw`) is modelled with `Option`, `none`
standing for a panic.
-/

/-- `const RESOLUTION: u32 = 800;` -/
def RESOLUTION : ℕ := 800

/-- The `MandelbrotSet` struct: field buffer, viewport limits, iteration
budget and colour function.  `[u8; RESOLUTION*RESOLUTION]` is modelled as a
list of bytes (naturals), `f64` limits as rationals, `u32` as a natural. -/
structure MandelbrotSet where
  set : List ℕ
  re_limits : ℚ × ℚ
  im_limits : ℚ × ℚ
  max_iterations : ℕ
  color_function : ℕ → ℕ × ℕ × ℕ

/-- `hsv_to_rgb`: the hue/saturation/value to RGB conversion of the source,
with `f32` arithmetic idealised as exact rationals; the final `as u8` cast
truncates toward zero and saturates at 255. -/
def hsv_to_rgb (hsv : ℕ × ℕ × ℕ) : ℕ × ℕ × ℕ :=
  let h : ℚ := (hsv.1 : ℚ) / 255 * 360
  let s : ℚ := (hsv.2.1 : ℚ) / 255
  let v : ℚ := (hsv.2.2 : ℚ) / 255
  let f : ℚ → ℚ := fun n =>
    let u := n + h / 60
    let k := u - (⌊u / 6⌋ : ℚ) * 6
    v - v * s * max (min (min k (4 - k)) 1) 0
  let r := 255 * f 5
  let g := 255 * f 3
  let b := 255 * f 1
  (min 255 (⌊r⌋.toNat), min 255 (⌊g⌋.toNat), min 255 (⌊b⌋.toNat))

/-- `MandelbrotSet::normalize`:
`((iterations as f32) / (max_iterations as f32) * 255.0).round() as u8`.
`round` on a nonnegative value rounds half away from zero, matching
Mathlib's `round`; the `as u8` cast saturates at 255. -/
def MandelbrotSet.normalize (iterations max_iterations : ℕ) : ℕ :=
  min 255 (round ((iterations : ℚ) / (max_iterations : ℚ) * 255)).toNat

/-- The `while` loop of `MandelbrotSet::mandelbrot`:
`while n <= max_iterations && z.norm_sqr() < 4.0 { z = z.powu(2) + c; n += 1; }`.
`z.powu(2) + c` is `(zre^2 - zim^2 + cre, 2*zre*zim + cim)` and
`norm_sqr` is `zre^2 + zim^2`.  The structural `fuel` argument only bounds
the recursion; `mandelbrotLoop_fuel_succ` below shows any fuel of at least
`max_iterations + 1 - n` gives the same (loop-faithful) result. -/
def mandelbrotLoop (cre cim : ℚ) (max_iterations : ℕ) :
    ℕ → ℚ → ℚ → ℕ → ℕ
  | 0, _, _, n => n
  | fuel + 1, zre, zim, n =>
    if n ≤ max_iterations ∧ zre * zre + zim * zim < 4 then
      mandelbrotLoop cre cim max_iterations fuel
        (zre * zre - zim * zim + cre) (2 * zre * zim + cim) (n + 1)
    else n

/-- `MandelbrotSet::mandelbrot(re, im, max_iterations)`: escape-time count
starting from `n = 0`, `z = 0 + 0i`. -/
def MandelbrotSet.mandelbrot (re im : ℚ) (max_iterations : ℕ) : ℕ :=
  mandelbrotLoop re im max_iterations (max_iterations + 2) 0 0 0

/-- The pixel-to-coordinate mapping inside `MandelbrotSet::calculate`:
`m_re = (re_limits[1] - re_limits[0]) / RESOLUTION`,
`re = re_limits[0] + m_re * x`, and likewise for the imaginary axis. -/
def pixelToCoord (re_limits im_limits : ℚ × ℚ) (x y : ℕ) : ℚ × ℚ :=
  let re_range := re_limits.2 - re_limits.1
  let im_range := im_limits.2 - im_limits.1
  let m_re := re_range / (RESOLUTION : ℚ)
  let m_im := im_range / (RESOLUTION : ℚ)
  (re_limits.1 + m_re * (x : ℚ), im_limits.1 + m_im * (y : ℚ))

/-- `MandelbrotSet::calculate`: recompute every cell of `set` from the cell
index `i` (with `x = i % RESOLUTION`, `y = i / RESOLUTION`), the viewport
limits and the iteration budget.  The `par_iter_mut` fill writes each index
exactly once from data fixed before the loop, so it is modelled as a map
over the index range. -/
def MandelbrotSet.calculate (s : MandelbrotSet) : MandelbrotSet :=
  { s with
    set := (List.range (RESOLUTION * RESOLUTION)).map (fun i =>
      let x := i % RESOLUTION
      let y := i / RESOLUTION
      let coord := pixelToCoord s.re_limits s.im_limits x y
      MandelbrotSet.normalize
        (MandelbrotSet.mandelbrot coord.1 coord.2 s.max_iterations)
        s.max_iterations) }

/-- `MandelbrotSet::new()`. -/
def MandelbrotSet.new : MandelbrotSet :=
  { set := List.replicate (RESOLUTION * RESOLUTION) 0
    re_limits := (-2, 2)
    im_limits := (-2, 2)
    max_iterations := 255
    color_function := fun c => (c, c, c) }

/-- The loop of `MandelbrotSet::draw`: iterate over the complete 4-byte
chunks of `frame` (`chunks_exact_mut(4)` leaves any remainder untouched);
chunk `i` is overwritten with `[rgb[0], rgb[1], rgb[2], 255]` where
`rgb = color_function(set[i])`.  The indexing `set[i]` panics when `i` is
out of bounds, modelled by `none`. -/
def drawGo (set : List ℕ) (color_function : ℕ → ℕ × ℕ × ℕ) (i : ℕ) :
    List ℕ → Option (List ℕ)
  | _ :: _ :: _ :: _ :: rest =>
    match set[i]? with
    | none => none
    | some c =>
      match drawGo set color_function (i + 1) rest with
      | none => none
      | some rest2 =>
        some ((color_function c).1 :: (color_function c).2.1 ::
          (color_function c).2.2 :: 255 :: rest2)
  | [] => some []
  | [b0] => some [b0]
  | [b0, b1] => some [b0, b1]
  | [b0, b1, b2] => some [b0, b1, b2]

/-- `MandelbrotSet::draw(frame)`. -/
def MandelbrotSet.draw (s : MandelbrotSet) (frame : List ℕ) :
    Option (List ℕ) :=
  drawGo s.set s.color_function 0 frame

/-- The pan block of the event loop (lines 168-182): if any direction key
fired, accumulate `±0.1` per direction into the shift for each axis, negate
the imaginary shift (`invert_vertical = true`), and move both bounds of each
axis by `shift * range`.  The ranges are computed before the block. -/
def panStep (up down left right : Bool) (im_range re_range : ℚ)
    (s : MandelbrotSet) : MandelbrotSet :=
  if up || down || left || right then
    let im_shift0 : ℚ :=
      (if down then -(1 / 10 : ℚ) else 0) + (if up then (1 / 10 : ℚ) else 0)
    let im_shift : ℚ := -im_shift0
    let re_shift : ℚ :=
      (if left then -(1 / 10 : ℚ) else 0) + (if right then (1 / 10 : ℚ) else 0)
    { s with
      im_limits := (s.im_limits.1 + im_shift * im_range,
                    s.im_limits.2 + im_shift * im_range)
      re_limits := (s.re_limits.1 + re_shift * re_range,
                    s.re_limits.2 + re_shift * re_range) }
  else s

/-- The zoom block of the event loop (lines 183-192): if a zoom key fired,
`zoom_dir` is `1` for zoom-in (which wins when both fired) and `-1` for
zoom-out; each axis's lower bound moves up and upper bound moves down by
`zoom_dir * 0.1 * range`, with the ranges computed before the block. -/
def zoomStep (zoom_in zoom_out : Bool) (im_range re_range : ℚ)
    (s : MandelbrotSet) : MandelbrotSet :=
  if zoom_in || zoom_out then
    let zoom_dir : ℚ := if zoom_in then 1 else -1
    { s with
      re_limits := (s.re_limits.1 + zoom_dir * (1 / 10) * re_range,
                    s.re_limits.2 - zoom_dir * (1 / 10) * re_range)
      im_limits := (s.im_limits.1 + zoom_dir * (1 / 10) * im_range,
                    s.im_limits.2 - zoom_dir * (1 / 10) * im_range) }
  else s

/-- `mandelbrot.max_iterations += iterations_delta;` on a `u32`: wraps
modulo 2^32 = 4294967296 (release-mode overflow semantics). -/
def incIterations (m : ℕ) : ℕ := (m + 10) % 4294967296

/-- `if less_iterations && mandelbrot.max_iterations > iterations_delta`
`{ mandelbrot.max_iterations -= 10; }`: the decrement only applies when the
current budget exceeds the step 10. -/
def decIterations (m : ℕ) : ℕ := if 10 < m then m - 10 else m

/-- The key flags read by one pass of the event loop's input handling. -/
structure Input where
  up : Bool := false
  down : Bool := false
  left : Bool := false
  right : Bool := false
  zoom_in : Bool := false
  zoom_out : Bool := false
  reset : Bool := false
  less_iterations : Bool := false
  more_iterations : Bool := false

/-- One pass of the event loop's "Mandelbrot movement" section
(lines 164-205): ranges are computed first, then pan, zoom, reset
(`MandelbrotSet::new()`), budget increment, budget decrement, and a final
`calculate()` when any flag fired. -/
def mainStep (input : Input) (s : MandelbrotSet) : MandelbrotSet :=
  let im_range := s.im_limits.2 - s.im_limits.1
  let re_range := s.re_limits.2 - s.re_limits.1
  let s1 := panStep input.up input.down input.left input.right
    im_range re_range s
  let s2 := zoomStep input.zoom_in input.zoom_out im_range re_range s1
  let s3 := if input.reset then MandelbrotSet.new else s2
  let s4 := if input.more_iterations then
    { s3 with max_iterations := incIterations s3.max_iterations } else s3
  let s5 := if input.less_iterations then
    { s4 with max_iterations := decIterations s4.max_iterations } else s4
  if input.up || input.down || input.left || input.right ||
      input.zoom_in || input.zoom_out || input.reset ||
      input.less_iterations || input.more_iterations then
    s5.calculate
  else s5

/-- The state of `main` after setup: `MandelbrotSet::new()`, a first
`calculate()`, then the colour function is swapped for the hue mapping. -/
def initialState : MandelbrotSet :=
  { MandelbrotSet.new.calculate with
    color_function := fun c => hsv_to_rgb (c, 255, 255) }

/-- A whole interaction: fold the event-loop step over a list of inputs. -/
def applyInputs (inputs : List Input) : MandelbrotSet :=
  inputs.foldl (fun s input => mainStep input s) initialState

/-- Input with only the zoom-in key (`X`) pressed. -/
def zoomInInput : Input := { zoom_in := true }

/-- Input with only the zoom-out key (`Z`) pressed. -/
def zoomOutInput : Input := { zoom_out := true }

/-- A small concrete state used to instantiate `draw` facts. -/
def smallSet : MandelbrotSet :=
  { set := [7, 9]
    re_limits := (-2, 2)
    im_limits := (-2, 2)
    max_iterations := 255
    color_function := fun c => (c, c, c) }

/-! ### General lemmas about the escape-time loop -/

/-- The structural fuel is an artifact of the embedding: any fuel of at
least `max_iterations + 1 - n` yields the same value, so the definition
agrees with the unbounded `while` loop of the source. -/
theorem mandelbrotLoop_fuel_succ (cre cim : ℚ) (M : ℕ) :
    ∀ (fuel n : ℕ) (zre zim : ℚ), M + 1 ≤ n + fuel →
      mandelbrotLoop cre cim M fuel zre zim n =
        mandelbrotLoop cre cim M (fuel + 1) zre zim n
  | 0, n, zre, zim, h => by
    have hn : ¬ (n ≤ M ∧ zre * zre + zim * zim < 4) := by
      rintro ⟨h1, _⟩; omega
    simp only [mandelbrotLoop, if_neg hn]
  | fuel + 1, n, zre, zim, h => by
    by_cases hc : n ≤ M ∧ zre * zre + zim * zim < 4
    · simp only [mandelbrotLoop, if_pos hc]
      exact mandelbrotLoop_fuel_succ cre cim M fuel (n + 1) _ _ (by omega)
    · simp only [mandelbrotLoop, if_neg hc]

/-- The loop counter never exceeds `max_iterations + 1`: the guard
`n ≤ max_iterations` admits at most one final increment. -/
theorem mandelbrotLoop_le (cre cim : ℚ) (M : ℕ) :
    ∀ (fuel n : ℕ) (zre zim : ℚ), n ≤ M + 1 →
      mandelbrotLoop cre cim M fuel zre zim n ≤ M + 1
  | 0, n, _, _, h => by simpa only [mandelbrotLoop] using h
  | fuel + 1, n, zre, zim, h => by
    by_cases hc : n ≤ M ∧ zre * zre + zim * zim < 4
    · simp only [mandelbrotLoop, if_pos hc]
      exact mandelbrotLoop_le cre cim M fuel (n + 1) _ _
        (by have := hc.1; omega)
    · simpa only [mandelbrotLoop, if_neg hc] using h

/-- On the zero orbit (`c = 0`, `z = 0`) the squared norm stays `0 < 4`,
so the loop runs until the guard `n ≤ max_iterations` fails and returns
`max_iterations + 1`. -/
theorem mandelbrotLoop_zero (M : ℕ) :
    ∀ (fuel n : ℕ), n ≤ M + 1 → M + 1 ≤ n + fuel →
      mandelbrotLoop 0 0 M fuel 0 0 n = M + 1
  | 0, n, h1, h2 => by
    simp only [mandelbrotLoop]; omega
  | fuel + 1, n, h1, h2 => by
    by_cases hn : n ≤ M
    · have hc : n ≤ M ∧ (0 : ℚ) * 0 + 0 * 0 < 4 := ⟨hn, by norm_num⟩
      simp only [mandelbrotLoop, if_pos hc]
      rw [show (0 : ℚ) * 0 - 0 * 0 + 0 = 0 by norm_num,
        show 2 * (0 : ℚ) * 0 + 0 = 0 by norm_num]
      exact mandelbrotLoop_zero M fuel (n + 1) (by omega) (by omega)
    · have hc : ¬ (n ≤ M ∧ (0 : ℚ) * 0 + 0 * 0 < 4) := by
        rintro ⟨h, _⟩; omega
      simp only [mandelbrotLoop, if_neg hc]
      omega

/-! ### Claims C1 and C2: range of the escape-time evaluator -/

/-- Claim C1 counterexample: at `c = 0` with budget `0` the evaluator
returns `1`, which is not `≤ 0`, so the contract
`0 <= result <= max_iterations` fails as stated. -/
theorem mandelbrot_budget_cex :
    MandelbrotSet.mandelbrot 0 0 0 = 1 ∧
      ¬ MandelbrotSet.mandelbrot 0 0 0 ≤ 0 := by
  constructor <;> norm_num [MandelbrotSet.mandelbrot, mandelbrotLoop]

/-- Claim C1 (amended): for every coordinate and budget the evaluator
returns a count `n` with `0 ≤ n ≤ max_iterations + 1`; the loop guard
`n <= max_iterations` allows one final increment past the budget. -/
theorem mandelbrot_result_le_budget_succ (re im : ℚ) (m : ℕ) :
    MandelbrotSet.mandelbrot re im m ≤ m + 1 :=
  mandelbrotLoop_le re im m (m + 2) 0 0 0 (by omega)

/-- Claim C2 counterexample: at the origin with budget `3` the evaluator
returns `4`, not `3`. -/
theorem mandelbrot_origin_cex :
    MandelbrotSet.mandelbrot 0 0 3 = 4 ∧ (4 : ℕ) ≠ 3 := by
  constructor <;> norm_num [MandelbrotSet.mandelbrot, mandelbrotLoop]

/-- Claim C2 (amended): for the origin `c = 0` and every budget `N` the
evaluator returns exactly `N + 1`: the orbit never escapes, and the loop
guard `n <= N` lets the counter reach `N + 1` before stopping. -/
theorem mandelbrot_origin_exact (m : ℕ) :
    MandelbrotSet.mandelbrot 0 0 m = m + 1 :=
  mandelbrotLoop_zero m (m + 2) 0 (by omega) (by omega)

/-! ### Projection lemmas for the state operations -/

@[simp]
theorem calculate_re_limits (s : MandelbrotSet) :
    s.calculate.re_limits = s.re_limits := by
  unfold MandelbrotSet.calculate; rfl

@[simp]
theorem calculate_im_limits (s : MandelbrotSet) :
    s.calculate.im_limits = s.im_limits := by
  unfold MandelbrotSet.calculate; rfl

@[simp]
theorem calculate_max_iterations (s : MandelbrotSet) :
    s.calculate.max_iterations = s.max_iterations := by
  unfold MandelbrotSet.calculate; rfl

@[simp]
theorem calculate_color_function (s : MandelbrotSet) :
    s.calculate.color_function = s.color_function := by
  unfold MandelbrotSet.calculate; rfl

@[simp]
theorem panStep_max_iterations (u d l r : Bool) (ir rr : ℚ)
    (s : MandelbrotSet) :
    (panStep u d l r ir rr s).max_iterations = s.max_iterations := by
  unfold panStep; split <;> rfl

@[simp]
theorem panStep_color_function (u d l r : Bool) (ir rr : ℚ)
    (s : MandelbrotSet) :
    (panStep u d l r ir rr s).color_function = s.color_function := by
  unfold panStep; split <;> rfl

@[simp]
theorem panStep_set (u d l r : Bool) (ir rr : ℚ) (s : MandelbrotSet) :
    (panStep u d l r ir rr s).set = s.set := by
  unfold panStep; split <;> rfl

@[simp]
theorem zoomStep_max_iterations (zin zout : Bool) (ir rr : ℚ)
    (s : MandelbrotSet) :
    (zoomStep zin zout ir rr s).max_iterations = s.max_iterations := by
  unfold zoomStep; split <;> rfl

@[simp]
theorem zoomStep_color_function (zin zout : Bool) (ir rr : ℚ)
    (s : MandelbrotSet) :
    (zoomStep zin zout ir rr s).color_function = s.color_function := by
  unfold zoomStep; split <;> rfl

@[simp]
theorem zoomStep_set (zin zout : Bool) (ir rr : ℚ) (s : MandelbrotSet) :
    (zoomStep zin zout ir rr s).set = s.set := by
  unfold zoomStep; split <;> rfl

/-! ### Claim C3: zoom-in followed by zoom-out -/

/-- Claim C3 counterexample: from the default viewport `[-2,2]×[-2,2]`,
one zoom-in step followed by one zoom-out step leaves the real bounds at
`(-48/25, 48/25) = (-1.92, 1.92)`, not at the pre-zoom `(-2, 2)`. -/
theorem zoom_roundtrip_cex :
    (mainStep zoomOutInput (mainStep zoomInInput MandelbrotSet.new)).re_limits
        = (-(48 / 25 : ℚ), (48 / 25 : ℚ)) ∧
      MandelbrotSet.new.re_limits = (-2, 2) ∧
      (mainStep zoomOutInput (mainStep zoomInInput MandelbrotSet.new)).re_limits
        ≠ MandelbrotSet.new.re_limits := by
  refine ⟨?_, rfl, ?_⟩ <;>
    simp [mainStep, zoomInInput, zoomOutInput, panStep, zoomStep,
      MandelbrotSet.new] <;> norm_num

/-- Claim C3 (amended): a zoom-in step followed by a zoom-out step does not
restore the viewport; each lower bound ends at `min + (1/50)·range` and each
upper bound at `max - (1/50)·range` of the original axis range: the pair of
steps shrinks the viewport by 2% of the original range on each side. -/
theorem zoom_roundtrip_amended (s : MandelbrotSet) :
    (mainStep zoomOutInput (mainStep zoomInInput s)).re_limits.1
        = s.re_limits.1 + 1 / 50 * (s.re_limits.2 - s.re_limits.1) ∧
      (mainStep zoomOutInput (mainStep zoomInInput s)).re_limits.2
        = s.re_limits.2 - 1 / 50 * (s.re_limits.2 - s.re_limits.1) ∧
      (mainStep zoomOutInput (mainStep zoomInInput s)).im_limits.1
        = s.im_limits.1 + 1 / 50 * (s.im_limits.2 - s.im_limits.1) ∧
      (mainStep zoomOutInput (mainStep zoomInInput s)).im_limits.2
        = s.im_limits.2 - 1 / 50 * (s.im_limits.2 - s.im_limits.1) := by
  refine ⟨?_, ?_, ?_, ?_⟩ <;>
    (simp [mainStep, zoomInInput, zoomOutInput, panStep, zoomStep]; ring)

/-! ### Claim C5: budget increment and decrement -/

/-- Claim C5 counterexample: at budget 15 a decrement would take the budget
to 5, which is at or below the step size 10, yet the code's guard
`max_iterations > 10` lets it through: the result is 5, not a refusal. -/
theorem budget_dec_cex :
    decIterations 15 = 5 ∧ 15 - 10 ≤ 10 ∧ decIterations 15 ≠ 15 := by
  decide

/-- Claim C5 (amended): an increment adds exactly 10 whenever the `u32`
addition does not overflow; a decrement is refused (a no-op) exactly when
the current budget is at or below the step size 10 — that is, when
subtracting would reach zero or below — and otherwise subtracts exactly 10,
possibly leaving a budget at or below 10. -/
theorem budget_adjust_amended (m : ℕ) :
    (m + 10 < 4294967296 → incIterations m = m + 10) ∧
      (decIterations m = m ↔ m ≤ 10) ∧
      (10 < m → decIterations m = m - 10) := by
  unfold incIterations decIterations
  refine ⟨fun h => Nat.mod_eq_of_lt h, ?_, fun h => if_pos h⟩
  split_ifs with h1 <;> omega

/-- Witness for C5's amended theorem at concrete budgets 15 and 5. -/
theorem budget_adjust_witness :
    incIterations 15 = 25 ∧ decIterations 15 = 5 ∧ decIterations 5 = 5 := by
  refine ⟨?_, ?_, (budget_adjust_amended 5).2.1.mpr (by norm_num)⟩
  · have h := (budget_adjust_amended 15).1 (by norm_num)
    simpa using h
  · have h := (budget_adjust_amended 15).2.2 (by norm_num)
    simpa using h

/-! ### Claim C9: the budget stays positive along every interaction -/

@[simp]
theorem new_max_iterations : MandelbrotSet.new.max_iterations = 255 := rfl

/-- How one event-loop pass transforms the iteration budget: reset forces
255, then the increment and decrement apply in order. -/
theorem mainStep_max_iterations (input : Input) (s : MandelbrotSet) :
    (mainStep input s).max_iterations =
      (let m3 := if input.reset then 255 else s.max_iterations
       let m4 := if input.more_iterations then incIterations m3 else m3
       if input.less_iterations then decIterations m4 else m4) := by
  simp only [mainStep, apply_ite MandelbrotSet.max_iterations,
    calculate_max_iterations, zoomStep_max_iterations,
    panStep_max_iterations, new_max_iterations]
  split <;> rfl

/-- The budget invariant: it is odd (the default 255 is odd and every
operation preserves parity, wrap-around modulo the even 2^32 included)
and below 2^32. -/
theorem mainStep_budget_invariant (input : Input) (s : MandelbrotSet)
    (h : s.max_iterations % 2 = 1 ∧ s.max_iterations < 4294967296) :
    (mainStep input s).max_iterations % 2 = 1 ∧
      (mainStep input s).max_iterations < 4294967296 := by
  rw [mainStep_max_iterations]
  simp only [incIterations, decIterations]
  split_ifs <;> omega

/-- Claim C9: across every sequence of user operations starting from the
default state, the iteration budget stays at or above a positive minimum:
it is always odd, hence never zero (nor negative, being a natural). -/
theorem budget_stays_positive (inputs : List Input) :
    0 < (applyInputs inputs).max_iterations := by
  have key : ∀ (l : List Input) (s : MandelbrotSet),
      s.max_iterations % 2 = 1 ∧ s.max_iterations < 4294967296 →
      (l.foldl (fun s input => mainStep input s) s).max_iterations % 2 = 1 ∧
        (l.foldl (fun s input => mainStep input s) s).max_iterations
          < 4294967296 := by
    intro l
    induction l with
    | nil => exact fun s h => h
    | cons a t ih =>
      exact fun s h => ih (mainStep a s) (mainStep_budget_invariant a s h)
  have h0 : initialState.max_iterations % 2 = 1 ∧
      initialState.max_iterations < 4294967296 := by
    have : initialState.max_iterations = 255 := rfl
    omega
  have := key inputs initialState h0
  unfold applyInputs
  omega

/-! ### Claim C10: pan touches only the viewport bounds -/

/-- Claim C10: a pan with any non-empty combination of directions leaves
the budget, the colour function and the field buffer untouched, and
preserves the width of each axis, since both bounds of an axis move by the
same amount. -/
theorem pan_frame_effect (u d l r : Bool) (ir rr : ℚ) (s : MandelbrotSet)
    (h : (u || d || l || r) = true) :
    (panStep u d l r ir rr s).max_iterations = s.max_iterations ∧
      (panStep u d l r ir rr s).color_function = s.color_function ∧
      (panStep u d l r ir rr s).set = s.set ∧
      (panStep u d l r ir rr s).re_limits.2
          - (panStep u d l r ir rr s).re_limits.1
        = s.re_limits.2 - s.re_limits.1 ∧
      (panStep u d l r ir rr s).im_limits.2
          - (panStep u d l r ir rr s).im_limits.1
        = s.im_limits.2 - s.im_limits.1 := by
  refine ⟨panStep_max_iterations u d l r ir rr s,
    panStep_color_function u d l r ir rr s, panStep_set u d l r ir rr s,
    ?_, ?_⟩ <;> (simp only [panStep, h, if_true]; simp)

/-- Witness for C10 at a concrete pan (up only) from the default state. -/
theorem pan_frame_effect_witness :
    ((true || false || false || false) = true) ∧
      ((panStep true false false false 4 4 MandelbrotSet.new).max_iterations
          = MandelbrotSet.new.max_iterations ∧
        (panStep true false false false 4 4 MandelbrotSet.new).color_function
          = MandelbrotSet.new.color_function ∧
        (panStep true false false false 4 4 MandelbrotSet.new).set
          = MandelbrotSet.new.set ∧
        (panStep true false false false 4 4 MandelbrotSet.new).re_limits.2
            - (panStep true false false false 4 4 MandelbrotSet.new).re_limits.1
          = MandelbrotSet.new.re_limits.2 - MandelbrotSet.new.re_limits.1 ∧
        (panStep true false false false 4 4 MandelbrotSet.new).im_limits.2
            - (panStep true false false false 4 4 MandelbrotSet.new).im_limits.1
          = MandelbrotSet.new.im_limits.2 - MandelbrotSet.new.im_limits.1) :=
  ⟨rfl, pan_frame_effect true false false false 4 4 MandelbrotSet.new rfl⟩

/-! ### Claim C6: the pixel-to-coordinate mapping -/

/-- Claim C6: for every pixel the mapped coordinate follows the linear
formula `re = re_min + (re_max - re_min)/RESOLUTION * x` (and likewise for
`im`); pixel `(0,0)` maps exactly to `(re_min, im_min)`, and pixel
`(RESOLUTION-1, RESOLUTION-1)` falls short of `(re_max, im_max)` by exactly
one pixel step on each axis, hence lies strictly below it. -/
theorem pixel_mapping_spec (rl il : ℚ × ℚ) (hre : rl.1 < rl.2)
    (him : il.1 < il.2) :
    (∀ x y : ℕ, pixelToCoord rl il x y =
        (rl.1 + (rl.2 - rl.1) / (RESOLUTION : ℚ) * x,
          il.1 + (il.2 - il.1) / (RESOLUTION : ℚ) * y)) ∧
      pixelToCoord rl il 0 0 = (rl.1, il.1) ∧
      (pixelToCoord rl il (RESOLUTION - 1) (RESOLUTION - 1)).1
        = rl.2 - (rl.2 - rl.1) / (RESOLUTION : ℚ) ∧
      (pixelToCoord rl il (RESOLUTION - 1) (RESOLUTION - 1)).1 < rl.2 ∧
      (pixelToCoord rl il (RESOLUTION - 1) (RESOLUTION - 1)).2
        = il.2 - (il.2 - il.1) / (RESOLUTION : ℚ) ∧
      (pixelToCoord rl il (RESOLUTION - 1) (RESOLUTION - 1)).2 < il.2 := by
  have hcast : ((RESOLUTION - 1 : ℕ) : ℚ) = 799 := by norm_num [RESOLUTION]
  have hre_step : (0 : ℚ) < (rl.2 - rl.1) / (RESOLUTION : ℚ) := by
    apply div_pos (by linarith)
    norm_num [RESOLUTION]
  have him_step : (0 : ℚ) < (il.2 - il.1) / (RESOLUTION : ℚ) := by
    apply div_pos (by linarith)
    norm_num [RESOLUTION]
  have hre_eq : (pixelToCoord rl il (RESOLUTION - 1) (RESOLUTION - 1)).1
      = rl.2 - (rl.2 - rl.1) / (RESOLUTION : ℚ) := by
    simp only [pixelToCoord, hcast]
    norm_num [RESOLUTION]
    ring
  have him_eq : (pixelToCoord rl il (RESOLUTION - 1) (RESOLUTION - 1)).2
      = il.2 - (il.2 - il.1) / (RESOLUTION : ℚ) := by
    simp only [pixelToCoord, hcast]
    norm_num [RESOLUTION]
    ring
  refine ⟨fun x y => rfl, by simp [pixelToCoord], hre_eq, ?_, him_eq, ?_⟩
  · rw [hre_eq]; linarith
  · rw [him_eq]; linarith

/-- Witness for C6 on the default viewport `[-2,2]×[-2,2]`. -/
theorem pixel_mapping_witness :
    pixelToCoord (-2, 2) (-2, 2) 0 0 = (-2, -2) ∧
      (pixelToCoord (-2, 2) (-2, 2) (RESOLUTION - 1) (RESOLUTION - 1)).1 < 2 ∧
      (pixelToCoord (-2, 2) (-2, 2) (RESOLUTION - 1) (RESOLUTION - 1)).2
        < 2 := by
  have h := pixel_mapping_spec (-2, 2) (-2, 2) (by norm_num) (by norm_num)
  exact ⟨by simpa using h.2.1, by simpa using h.2.2.2.1,
    by simpa using h.2.2.2.2.2⟩

/-! ### Claim C4: normalization and its range -/

/-- Claim C4 counterexample: under budget 1 the evaluator actually produces
the count 2 (at the origin); the stored intensity is 255 (the saturating
`as u8` cast), but the claimed formula `round(iterations/max·255)` gives
510, and the premise `iterations ≤ max_iterations` fails. -/
theorem normalize_formula_cex :
    MandelbrotSet.mandelbrot 0 0 1 = 2 ∧
      MandelbrotSet.normalize 2 1 = 255 ∧
      (round ((2 : ℚ) / (1 : ℚ) * 255)).toNat = 510 ∧
      (255 : ℕ) ≠ 510 := by
  refine ⟨?_, ?_, ?_, by norm_num⟩
  · norm_num [MandelbrotSet.mandelbrot, mandelbrotLoop]
  · norm_num [MandelbrotSet.normalize]
  · norm_num
    decide

/-- Claim C4 (amended): the stored intensity is always in `[0, 255]`, but by
the saturating byte cast, not because counts stay within the budget: for
`iterations ≤ max_iterations` (budget positive) the intensity equals
`round(iterations/max_iterations·255)` as claimed, while the evaluator also
produces the out-of-range count `max_iterations + 1` (at non-escaping
points), whose intensity saturates to 255. -/
theorem normalize_spec (i m : ℕ) :
    MandelbrotSet.normalize i m ≤ 255 ∧
      (i ≤ m → 0 < m →
        MandelbrotSet.normalize i m
          = (round ((i : ℚ) / (m : ℚ) * 255)).toNat) ∧
      (0 < m →
        MandelbrotSet.normalize (MandelbrotSet.mandelbrot 0 0 m) m = 255) := by
  refine ⟨min_le_left _ _, fun hi hm => ?_, fun hm => ?_⟩
  · have hm0 : (0 : ℚ) < (m : ℚ) := by exact_mod_cast hm
    have h1 : (i : ℚ) / (m : ℚ) ≤ 1 := by
      rw [div_le_one hm0]
      exact_mod_cast hi
    have hq : (i : ℚ) / (m : ℚ) * 255 ≤ 255 := by nlinarith
    have h3 := round_le_add_half ((i : ℚ) / (m : ℚ) * 255)
    have h4 : round ((i : ℚ) / (m : ℚ) * 255) ≤ 255 := by
      by_contra hcon
      push_neg at hcon
      have h5 : (256 : ℚ) ≤ (round ((i : ℚ) / (m : ℚ) * 255) : ℚ) := by
        exact_mod_cast hcon
      linarith
    unfold MandelbrotSet.normalize
    exact min_eq_right (by omega)
  · have horbit : MandelbrotSet.mandelbrot 0 0 m = m + 1 := by
      unfold MandelbrotSet.mandelbrot
      exact mandelbrotLoop_zero m (m + 2) 0 (by omega) (by omega)
    rw [horbit]
    have hm0 : (0 : ℚ) < (m : ℚ) := by exact_mod_cast hm
    have hq : ((m + 1 : ℕ) : ℚ) / (m : ℚ) * 255 = 255 + 255 / (m : ℚ) := by
      push_cast
      field_simp
      ring
    have hstep : (0 : ℚ) < 255 / (m : ℚ) := by positivity
    have h3 := sub_half_lt_round (((m + 1 : ℕ) : ℚ) / (m : ℚ) * 255)
    have h4 : (255 : ℤ) ≤ round (((m + 1 : ℕ) : ℚ) / (m : ℚ) * 255) := by
      by_contra hcon
      push_neg at hcon
      have h6 : round (((m + 1 : ℕ) : ℚ) / (m : ℚ) * 255) ≤ 254 := by omega
      have h5 : (round (((m + 1 : ℕ) : ℚ) / (m : ℚ) * 255) : ℚ) ≤ 254 := by
        exact_mod_cast h6
      rw [hq] at h3 h5
      linarith
    unfold MandelbrotSet.normalize
    exact min_eq_left (by omega)

/-- Witness for C4's amended theorem at `iterations = 1`, budget 2. -/
theorem normalize_spec_witness :
    MandelbrotSet.normalize 1 2 = 128 ∧
      MandelbrotSet.normalize (MandelbrotSet.mandelbrot 0 0 2) 2 = 255 := by
  have h := normalize_spec 1 2
  refine ⟨?_, h.2.2 (by norm_num)⟩
  have h1 := h.2.1 (by norm_num) (by norm_num)
  rw [h1]
  norm_num [round_eq]
  decide

/-! ### Claim C7: `calculate` is pure and idempotent -/

/-- The recomputed field depends only on the viewport limits and the
iteration budget: each cell is a function of its index and those inputs
alone, which is exactly why the disjoint-index parallel fill of the source
is deterministic. -/
theorem calculate_set_congr (s t : MandelbrotSet)
    (h1 : s.re_limits = t.re_limits) (h2 : s.im_limits = t.im_limits)
    (h3 : s.max_iterations = t.max_iterations) :
    s.calculate.set = t.calculate.set := by
  unfold MandelbrotSet.calculate
  simp only [h1, h2, h3]

/-- Claim C7: `calculate` is a deterministic pure function of the viewport
bounds and iteration budget — two states agreeing on those recompute
byte-identical field buffers regardless of their current buffers — and it
is idempotent: recomputing twice with no mutation in between equals
recomputing once. -/
theorem calculate_pure_idempotent (s t : MandelbrotSet)
    (h1 : s.re_limits = t.re_limits) (h2 : s.im_limits = t.im_limits)
    (h3 : s.max_iterations = t.max_iterations) :
    s.calculate.set = t.calculate.set ∧
      s.calculate.calculate.set = s.calculate.set :=
  ⟨calculate_set_congr s t h1 h2 h3,
    calculate_set_congr s.calculate s (calculate_re_limits s)
      (calculate_im_limits s) (calculate_max_iterations s)⟩

/-- Witness for C7: the default state and the same state with a scribbled
field buffer recompute identical buffers, and recomputation is idempotent
there. -/
theorem calculate_pure_idempotent_witness :
    MandelbrotSet.new.re_limits
        = ({ MandelbrotSet.new with set := [1] } : MandelbrotSet).re_limits ∧
      MandelbrotSet.new.im_limits
        = ({ MandelbrotSet.new with set := [1] } : MandelbrotSet).im_limits ∧
      MandelbrotSet.new.max_iterations
        = ({ MandelbrotSet.new with set := [1] } : MandelbrotSet).max_iterations ∧
      (MandelbrotSet.new.calculate.set
          = ({ MandelbrotSet.new with set := [1] } : MandelbrotSet).calculate.set ∧
        MandelbrotSet.new.calculate.calculate.set
          = MandelbrotSet.new.calculate.set) :=
  ⟨rfl, rfl, rfl,
    calculate_pure_idempotent MandelbrotSet.new
      { MandelbrotSet.new with set := [1] } rfl rfl rfl⟩

/-! ### Claim C8: `draw` and the frame-buffer size -/

/-- Behaviour of the `draw` loop: as long as every visited index is inside
`set` — which holds whenever the number of complete 4-byte chunks of the
frame fits in `set` — no panic occurs, the frame length is preserved, and
every complete chunk `j` receives the colour bytes of cell `i + j` plus the
opaque alpha byte 255. -/
theorem drawGo_spec (set : List ℕ) (cf : ℕ → ℕ × ℕ × ℕ) :
    ∀ (frame : List ℕ) (i : ℕ), i + frame.length / 4 ≤ set.length →
      ∃ out, drawGo set cf i frame = some out ∧ out.length = frame.length ∧
        ∀ j, 4 * (j + 1) ≤ frame.length →
          ∃ c, set[i + j]? = some c ∧
            (out.drop (4 * j)).take 4 =
              [(cf c).1, (cf c).2.1, (cf c).2.2, 255]
  | [], i, h => ⟨[], rfl, rfl, fun j hj => absurd hj (by simp)⟩
  | [b0], i, h => ⟨[b0], rfl, rfl, fun j hj => absurd hj (by simp; omega)⟩
  | [b0, b1], i, h =>
      ⟨[b0, b1], rfl, rfl, fun j hj => absurd hj (by simp; omega)⟩
  | [b0, b1, b2], i, h =>
      ⟨[b0, b1, b2], rfl, rfl, fun j hj => absurd hj (by simp; omega)⟩
  | b0 :: b1 :: b2 :: b3 :: rest, i, h => by
    have hlen : (b0 :: b1 :: b2 :: b3 :: rest).length = rest.length + 4 := by
      simp
    have hdiv : (rest.length + 4) / 4 = rest.length / 4 + 1 :=
      Nat.add_div_right _ (by norm_num)
    rw [hlen, hdiv] at h
    have hi : i < set.length := by omega
    obtain ⟨out2, hout, hlen2, hcontent⟩ :=
      drawGo_spec set cf rest (i + 1) (by omega)
    have hget : set[i]? = some set[i] := List.getElem?_eq_getElem hi
    refine ⟨(cf set[i]).1 :: (cf set[i]).2.1 :: (cf set[i]).2.2 :: 255 :: out2,
      ?_, ?_, ?_⟩
    · simp only [drawGo, hget, hout]
    · simp [hlen2]
    · intro j hj
      cases j with
      | zero => exact ⟨set[i], by rw [Nat.add_zero]; exact hget, by simp⟩
      | succ k =>
        have hk : 4 * (k + 1) ≤ rest.length := by
          simp at hj; omega
        obtain ⟨c, hc1, hc2⟩ := hcontent k hk
        refine ⟨c, ?_, ?_⟩
        · rw [show i + (k + 1) = i + 1 + k by omega]
          exact hc1
        · rw [show 4 * (k + 1) = 4 * k + 1 + 1 + 1 + 1 by ring]
          simpa [List.drop_succ_cons] using hc2

/-- Claim C8 counterexample: a frame of 3 bytes is smaller than the
required `4·RESOLUTION²`, yet `draw` does not fail: `chunks_exact_mut(4)`
yields no complete chunk, so the call returns with the frame untouched. -/
theorem new_set_length :
    MandelbrotSet.new.set.length = RESOLUTION * RESOLUTION := by
  unfold MandelbrotSet.new
  exact List.length_replicate _ _

/-- Claim C8 counterexample: a frame of 3 bytes is smaller than the
required `4·RESOLUTION²`, yet `draw` does not fail: `chunks_exact_mut(4)`
yields no complete chunk, so the call returns with the frame untouched. -/
theorem draw_undersized_cex :
    MandelbrotSet.new.draw [1, 2, 3] = some [1, 2, 3] ∧
      ([1, 2, 3] : List ℕ).length < 4 * MandelbrotSet.new.set.length := by
  refine ⟨rfl, ?_⟩
  rw [new_set_length]
  norm_num [RESOLUTION]

/-- Claim C8 (amended): `draw` does not fail on an undersized buffer — it
silently truncates, writing only the complete 4-byte chunks that fit and
returning the rest unchanged; on a buffer of exactly `4 · set.length` bytes
it writes, for every cell, the colour mapping of that cell's intensity plus
a fully-opaque alpha byte 255 into the corresponding 4-byte slot. -/
theorem draw_spec (s : MandelbrotSet) (frame : List ℕ) :
    (frame.length ≤ 4 * s.set.length →
        ∃ out, s.draw frame = some out ∧ out.length = frame.length) ∧
      (frame.length = 4 * s.set.length →
        ∃ out, s.draw frame = some out ∧ out.length = frame.length ∧
          ∀ j, j < s.set.length →
            ∃ c, s.set[j]? = some c ∧
              (out.drop (4 * j)).take 4 =
                [(s.color_function c).1, (s.color_function c).2.1,
                  (s.color_function c).2.2, 255]) := by
  constructor
  · intro h
    obtain ⟨out, h1, h2, _⟩ := drawGo_spec s.set s.color_function frame 0 (by
      have hd : frame.length / 4 ≤ 4 * s.set.length / 4 :=
        Nat.div_le_div_right h
      rw [Nat.mul_div_cancel_left _ (by norm_num)] at hd
      omega)
    exact ⟨out, h1, h2⟩
  · intro h
    obtain ⟨out, h1, h2, h3⟩ := drawGo_spec s.set s.color_function frame 0 (by
      rw [h, Nat.mul_div_cancel_left _ (by norm_num)]
      omega)
    refine ⟨out, h1, h2, fun j hj => ?_⟩
    have h4 := h3 j (by omega)
    simpa using h4

/-- Witness for C8's amended theorem: a two-cell state with an exactly
sized 8-byte frame, and an undersized 3-byte frame. -/
theorem draw_spec_witness :
    (([9, 9, 9] : List ℕ).length ≤ 4 * smallSet.set.length ∧
        ∃ out, smallSet.draw [9, 9, 9] = some out ∧
          out.length = ([9, 9, 9] : List ℕ).length) ∧
      (([0, 0, 0, 0, 0, 0, 0, 0] : List ℕ).length = 4 * smallSet.set.length ∧
        ∃ out, smallSet.draw [0, 0, 0, 0, 0, 0, 0, 0] = some out ∧
          out.length = ([0, 0, 0, 0, 0, 0, 0, 0] : List ℕ).length ∧
          ∀ j, j < smallSet.set.length →
            ∃ c, smallSet.set[j]? = some c ∧
              (out.drop (4 * j)).take 4 =
                [(smallSet.color_function c).1, (smallSet.color_function c).2.1,
                  (smallSet.color_function c).2.2, 255]) := by
  constructor
  · exact ⟨by simp [smallSet], (draw_spec smallSet [9, 9, 9]).1 (by simp [smallSet])⟩
  · exact ⟨by simp [smallSet],
      (draw_spec smallSet [0, 0, 0, 0, 0, 0, 0, 0]).2 (by simp [smallSet])⟩
